import Mathlib

/-!
# Verification of the electronics-toolkit solver core

A shallow embedding, over `ℚ`, of the numeric solver logic of the
electronics toolkit (series/parallel resistor networks, voltage divider,
Ohm's law, RC filter and RC delay, battery life) together with the shared
number-formatting utilities.  Each definition is translated directly from
the corresponding source function; JavaScript-specific numeric behaviour
(`toFixed`, `Math.round`, the `%` operator on doubles, division by zero
producing `Infinity`/`NaN`) is modelled explicitly.
-/

namespace Toolkit

/-! ## JavaScript numeric primitives -/

/-- `Number.prototype.toFixed(f)` re-parsed with `parseFloat`: rounds to the
nearest multiple of `10^(-f)`, ties toward the larger value (ECMA-262:
"if there are two such n, pick the larger n"). -/
def jsToFixed (f : ℕ) (q : ℚ) : ℚ := (⌊q * 10 ^ f + 1 / 2⌋ : ℚ) / 10 ^ f

/-- `x.toFixed(4)` then `parseFloat`, used by the Ohm's-law solver writeback. -/
def round4 : ℚ → ℚ := jsToFixed 4

/-- `x.toFixed(3)` then `parseFloat`, used by the voltage-divider writeback. -/
def round3 : ℚ → ℚ := jsToFixed 3

/-- `x.toFixed(1)` then `parseFloat`, the battery solver's raw-hours display. -/
def round1 : ℚ → ℚ := jsToFixed 1

/-- `Math.round`: round half toward positive infinity. -/
def jsRound (q : ℚ) : ℤ := ⌊q + 1 / 2⌋

/-- Truncation toward zero, as used by the JavaScript `%` operator. -/
def jsTrunc (q : ℚ) : ℤ := if 0 ≤ q then ⌊q⌋ else ⌈q⌉

/-- The JavaScript remainder operator `a % b` on finite doubles
(result carries the sign of the dividend). -/
def jsFmod (a b : ℚ) : ℚ := a - b * (jsTrunc (a / b) : ℚ)

/-- A JavaScript number that may be non-finite: the result of an unguarded
floating-point division. -/
inductive JSNum where
  | finite (q : ℚ)
  | posInf
  | negInf
  | nan
deriving DecidableEq

/-- JavaScript division `a / b`: division by zero yields `Infinity`,
`-Infinity` or `NaN` according to the sign of the numerator. -/
def jsDiv (a b : ℚ) : JSNum :=
  if b = 0 then
    if 0 < a then .posInf else if a < 0 then .negInf else .nan
  else .finite (a / b)

/-- `parseFloat(x.toFixed(4))` extended to non-finite values:
`Infinity.toFixed(4)` is the string `"Infinity"`, which re-parses to
`Infinity`, so non-finite values survive the writeback unchanged. -/
def jsRound4 : JSNum → JSNum
  | .finite q => .finite (round4 q)
  | x => x

/-! ## Resistor network data model (`types.ts`, `App.tsx`) -/

/-- A resistor row: `{ id, value, multiplier }`.  `id` is the opaque list key
(modelled as a natural number), `multiplier` one of ×1/×1e3/×1e6. -/
structure Resistor where
  id : ℕ
  value : ℚ
  multiplier : ℚ
deriving DecidableEq

/-- `actualResistance = value * multiplier`. -/
def actualResistance (r : Resistor) : ℚ := r.value * r.multiplier

/-- The source kind toggle: `'voltage' | 'current'`. -/
inductive InputType where
  | voltage
  | current
deriving DecidableEq

/-- A resistor extended with the derived per-element quantities. -/
structure CalculatedResistor where
  id : ℕ
  actualResistance : ℚ
  voltageDrop : ℚ
  currentFlow : ℚ
  power : ℚ
  sharePercentage : ℚ
deriving DecidableEq

/-- The aggregate output of the network solver. -/
structure NetworkResults where
  calculatedResistors : List CalculatedResistor
  totalResistance : ℚ
  totalCurrent : ℚ
  totalPower : ℚ
  totalVoltage : ℚ
deriving DecidableEq

/-- `totalResistance = rs.reduce((acc, r) => acc + r.actualResistance, 0)`. -/
def seriesTotalResistance (resistors : List Resistor) : ℚ :=
  (resistors.map actualResistance).sum

/-- The series total voltage: the source value for a voltage source,
`Itotal · Rtotal` for a current source. -/
def seriesTotalVoltage (resistors : List Resistor) (sourceValue : ℚ) :
    InputType → ℚ
  | .voltage => sourceValue
  | .current => sourceValue * seriesTotalResistance resistors

/-- The series total current: `totalVoltage / totalResistance` guarded by
`totalResistance > 0` (else 0) for a voltage source; the source value for a
current source. -/
def seriesTotalCurrent (resistors : List Resistor) (sourceValue : ℚ) :
    InputType → ℚ
  | .voltage =>
    if 0 < seriesTotalResistance resistors then
      sourceValue / seriesTotalResistance resistors
    else 0
  | .current => sourceValue

/-- The per-resistor record built inside `rs.map` in the series branch:
drop `= Itotal · Ri`, current `= Itotal`, power `= Itotal² · Ri`,
share `= drop/Vtotal × 100` guarded by `Vtotal > 0` (else 0). -/
def seriesRow (totalCurrent totalVoltage : ℚ) (r : Resistor) :
    CalculatedResistor :=
  let ar := actualResistance r
  let voltageDrop := totalCurrent * ar
  { id := r.id
    actualResistance := ar
    voltageDrop := voltageDrop
    currentFlow := totalCurrent
    power := totalCurrent * totalCurrent * ar
    sharePercentage :=
      if 0 < totalVoltage then voltageDrop / totalVoltage * 100 else 0 }

/-- The series branch of the `results` computation in `App.tsx`. -/
def seriesResults (resistors : List Resistor) (sourceValue : ℚ)
    (inputType : InputType) : NetworkResults :=
  { calculatedResistors := resistors.map
      (seriesRow (seriesTotalCurrent resistors sourceValue inputType)
        (seriesTotalVoltage resistors sourceValue inputType))
    totalResistance := seriesTotalResistance resistors
    totalCurrent := seriesTotalCurrent resistors sourceValue inputType
    totalPower := seriesTotalVoltage resistors sourceValue inputType *
      seriesTotalCurrent resistors sourceValue inputType
    totalVoltage := seriesTotalVoltage resistors sourceValue inputType }

/-! ## Shared formatting utilities (`App.tsx`) -/

/-- ECMA-402 `toLocaleString` with `maximumFractionDigits: f` (default
rounding mode halfExpand: ties away from zero). -/
def jsLocale (f : ℕ) (q : ℚ) : ℚ :=
  if q < 0 then -jsToFixed f (-q) else jsToFixed f q

/-- The unit-scaling formatter `formatUnit` in `App.tsx`, modelled as the pair
(displayed mantissa before digit rounding, SI suffix).  Chain of branches:
`≥ 1e6 → M`, `≥ 1e3 → k`, then for `0 < value < 1`:
`< 1e-6 → n (×1e9)`, `< 1e-3 → µ (×1e6)`, else `m (×1e3)`;
anything else (including 0 and negatives) is returned unscaled. -/
def formatUnit (num : ℚ) : ℚ × String :=
  if 1000000 ≤ num then (num / 1000000, "M")
  else if 1000 ≤ num then (num / 1000, "k")
  else if num < 1 ∧ 0 < num then
    if num < 1 / 1000000 then (num * 1000000000, "n")
    else if num < 1 / 1000 then (num * 1000000, "µ")
    else (num * 1000, "m")
  else (num, "")

/-- `formatUnit` with the mantissa put through
`toLocaleString('en-US', { maximumFractionDigits: 3 })`. -/
def formatUnitDisplay (num : ℚ) : ℚ × String :=
  ((formatUnit num).1 |> jsLocale 3, (formatUnit num).2)

/-- Modelled from the spec: the claimed prefix selection of C2 — the largest
SI prefix step among n, µ, m, none, k, M, G (thresholds at powers of 1000)
such that the scaled mantissa is at least 1, with value 0 returned
unscaled.  Used only to compare against `formatUnit`. -/
def specFormatUnit (num : ℚ) : ℚ × String :=
  if num = 0 then (0, "")
  else if 1000000000 ≤ num then (num / 1000000000, "G")
  else if 1000000 ≤ num then (num / 1000000, "M")
  else if 1000 ≤ num then (num / 1000, "k")
  else if 1 ≤ num then (num, "")
  else if 1 / 1000 ≤ num then (num * 1000, "m")
  else if 1 / 1000000 ≤ num then (num * 1000000, "µ")
  else (num * 1000000000, "n")

/-- The amended prefix selection: as `specFormatUnit` but with no G step
(the code's ladder tops out at M). -/
def specFormatUnitNoG (num : ℚ) : ℚ × String :=
  if num = 0 then (0, "")
  else if 1000000 ≤ num then (num / 1000000, "M")
  else if 1000 ≤ num then (num / 1000, "k")
  else if 1 ≤ num then (num, "")
  else if 1 / 1000 ≤ num then (num * 1000, "m")
  else if 1 / 1000000 ≤ num then (num * 1000000, "µ")
  else (num * 1000000000, "n")

/-- `Number.prototype.toExponential(f)` for a nonzero argument: the pair
`(n, e)` with `10^f ≤ n < 10^(f+1)` such that the rendered value is
`±(n / 10^f) · 10^e`; `n` is the nearest integer to `|x| / 10^(e-f)`, ties
toward the larger value, carrying into the next decade when the rounding
reaches `10^(f+1)`. -/
def toExpDigits (f : ℕ) (x : ℚ) : ℤ × ℤ :=
  let e := Int.log 10 |x|
  let n := ⌊|x| / (10 : ℚ) ^ (e - (f : ℤ)) + 1 / 2⌋
  if n = 10 ^ (f + 1) then (10 ^ f, e + 1) else (n, e)

/-- The rendering chosen by `formatNumber` in `App.tsx`. -/
inductive NumFormat where
  | zero
  | exponential (mantissa : ℤ) (exponent : ℤ) (neg : Bool)
  | locale (q : ℚ)
deriving DecidableEq

/-- `formatNumber` in `App.tsx`: `'0'` for 0; `num.toExponential(3)` when
`|num| < 0.001` or `|num| > 10000`; otherwise
`toLocaleString('en-US', { maximumFractionDigits: 3 })`. -/
def formatNumber (x : ℚ) : NumFormat :=
  if x = 0 then .zero
  else if |x| < 1 / 1000 ∨ 10000 < |x| then
    .exponential (toExpDigits 3 x).1 (toExpDigits 3 x).2 (decide (x < 0))
  else .locale (jsLocale 3 x)

/-- An exponential rendering shows exactly `k` significant digits when its
mantissa integer has `k` decimal digits. -/
def hasSigDigits (k : ℕ) : NumFormat → Prop
  | .exponential n _ _ => 10 ^ (k - 1) ≤ n ∧ n < 10 ^ k
  | _ => False

instance (k : ℕ) (fmt : NumFormat) : Decidable (hasSigDigits k fmt) := by
  cases fmt <;> simp only [hasSigDigits] <;> infer_instance

/-! ## RC calculator (`RCCalculator.tsx`) -/

/-- The outcome of `calculateFilter`.  The success constructors record which
branch fired and the two known quantities it used; the code then derives
`τ` and the third quantity from them (`fromRC`: `τ = rc`,
`fc = 1/(2πrc)`; `fromRF`: `C = 1/(2πrf)`; `fromCF`: `R = 1/(2πcf)`). -/
inductive FilterOutcome where
  | insufficientInputs
  | freqZero
  | capZero
  | fromRC (r c : ℚ)
  | fromRF (r f : ℚ)
  | fromCF (c f : ℚ)
deriving DecidableEq

/-- `calculateFilter`: inputs are the parsed `value × unit` products
(`none` when `parseFloat` gave `NaN`).  Branch chain exactly as in the
source: R&C first, then R&f, then C&f, else the insufficient-inputs
error. -/
def calculateFilter (r c f : Option ℚ) : FilterOutcome :=
  match r, c with
  | some rv, some cv => .fromRC rv cv
  | _, _ =>
    match r, f with
    | some rv, some fv =>
      if fv = 0 then .freqZero else .fromRF rv fv
    | _, _ =>
      match c, f with
      | some cv, some fv =>
        if fv = 0 then .freqZero
        else if cv = 0 then .capZero
        else .fromCF cv fv
      | _, _ => .insufficientInputs

/-- Number of parseable inputs among R, C, f. -/
def filterSuppliedCount (r c f : Option ℚ) : ℕ :=
  r.isSome.toNat + c.isSome.toNat + f.isSome.toNat

/-- The outcome of `calculateDelay`.  `timeFromTarget tau frac` stands for
the solved time `t = -tau · ln(1 - frac)`; `voltageFromTime vin tau t`
stands for the solved voltage `vin · (1 - e^(-t/tau))`. -/
inductive DelayOutcome where
  | noVin
  | noRC
  | targetAboveVin
  | targetNotPositive
  | timeFromTarget (tau frac : ℚ)
  | voltageFromTime (vin tau t : ℚ)
  | tauOnly (tau : ℚ)
deriving DecidableEq

/-- `!isNaN(x) && x > 0`: keeps a parsed value only when it is positive. -/
def optPos : Option ℚ → Option ℚ
  | some q => if 0 < q then some q else none
  | none => none

/-- `calculateDelay`: `vin` and `vtarget` are parsed volts, `r`, `c`, `t`
the parsed `value × unit` products (`none` when unparseable).  Guard
order as in the source: missing Vin, then missing/nonpositive R or C;
then if a target is present and no positive time: the two
`InvalidConfiguration` checks (`vtarget >= vin`, `vtarget <= 0`) and the
time solve; else if a positive time is present, the voltage solve; else
`τ` only. -/
def calculateDelay (vin vtarget r c t : Option ℚ) : DelayOutcome :=
  match vin with
  | none => .noVin
  | some vinV =>
    match optPos r, optPos c with
    | some rv, some cv =>
      let tau := rv * cv
      match vtarget, optPos t with
      | some vt, none =>
        if vinV ≤ vt then .targetAboveVin
        else if vt ≤ 0 then .targetNotPositive
        else .timeFromTarget tau (vt / vinV)
      | _, some tv => .voltageFromTime vinV tau tv
      | none, none => .tauOnly tau
    | _, _ => .noRC

/-! ## Voltage divider (`VoltageDivider.tsx`) -/

/-- The four stored fields, as parsed values (`none` = unparseable). -/
structure DividerState where
  vin : Option ℚ
  ra : Option ℚ
  rb : Option ℚ
  vout : Option ℚ
deriving DecidableEq

/-- The error verdicts of the voltage-divider `calculate`. -/
inductive DividerError where
  | insufficientInputs
  | sumZero
  | voutZero
  | vinEqVout
  | negativeResult
  | rbZero
deriving DecidableEq

/-- Number of parseable fields among Vin, Ra, Rb, Vout. -/
def dividerSuppliedCount (s : DividerState) : ℕ :=
  s.vin.isSome.toNat + s.ra.isSome.toNat + s.rb.isSome.toNat +
    s.vout.isSome.toNat

/-- The voltage-divider `calculate`: returns the error verdict (if any) and
the state after the solve.  Every error path in the source returns before
`setValues`, so it pairs the error with the unchanged state; each success
path writes `res.toFixed(3)` into the single missing field. -/
def dividerCalculate (s : DividerState) : Option DividerError × DividerState :=
  if dividerSuppliedCount s ≠ 3 then (some .insufficientInputs, s)
  else
    match s.vin, s.ra, s.rb, s.vout with
    | some vin, some ra, some rb, none =>
      if ra + rb = 0 then (some .sumZero, s)
      else (none, { s with vout := some (round3 (vin * (rb / (ra + rb)))) })
    | some vin, none, some rb, some vout =>
      if vout = 0 then (some .voutZero, s)
      else if |vin - vout| < 1 / 1000000 then (some .vinEqVout, s)
      else if rb * (vin / vout - 1) < 0 then (some .negativeResult, s)
      else (none, { s with ra := some (round3 (rb * (vin / vout - 1))) })
    | some vin, some ra, none, some vout =>
      if vin = vout then (some .vinEqVout, s)
      else if vout * ra / (vin - vout) < 0 then (some .negativeResult, s)
      else (none, { s with rb := some (round3 (vout * ra / (vin - vout))) })
    | none, some ra, some rb, some vout =>
      if rb = 0 then (some .rbZero, s)
      else (none, { s with vin := some (round3 (vout * (ra + rb) / rb)) })
    | _, _, _, _ => (none, s)

/-! ## Ohm's law (`OhmsLawCalculator.tsx`) -/

/-- The outcome of the Ohm's-law `calculate`.  Each success constructor
records which known pair fired (in the source's if-chain order) and the
two derived values.  `fromRP` carries the radicands `p·r` and `p/r`; the
source applies `Math.sqrt` to them, which is stated at the property level
because the square roots are in general irrational. -/
inductive OhmsOutcome where
  | insufficientInputs
  | fromVI (rOut pOut : JSNum)
  | fromVR (iOut pOut : JSNum)
  | fromVP (iOut rOut : JSNum)
  | fromIR (vOut pOut : JSNum)
  | fromIP (vOut rOut : JSNum)
  | fromRP (vSq iSq : JSNum)
deriving DecidableEq

/-- Number of parseable inputs among V, I, R, P. -/
def ohmsCount (v i r p : Option ℚ) : ℕ :=
  v.isSome.toNat + i.isSome.toNat + r.isSome.toNat + p.isSome.toNat

/-- The Ohm's-law `calculate`: the count-≠-2 guard, then the six formula
pairs by presence, in source order (V&I, V&R, V&P, I&R, I&P, R&P).
Divisions are unguarded JavaScript divisions. -/
def ohmsCalculate (v i r p : Option ℚ) : OhmsOutcome :=
  if ohmsCount v i r p ≠ 2 then .insufficientInputs
  else
    match v, i, r, p with
    | some vv, some iv, _, _ => .fromVI (jsDiv vv iv) (.finite (vv * iv))
    | some vv, _, some rv, _ => .fromVR (jsDiv vv rv) (jsDiv (vv * vv) rv)
    | some vv, _, _, some pv => .fromVP (jsDiv pv vv) (jsDiv (vv * vv) pv)
    | _, some iv, some rv, _ =>
      .fromIR (.finite (iv * rv)) (.finite (iv * iv * rv))
    | _, some iv, _, some pv => .fromIP (jsDiv pv iv) (jsDiv pv (iv * iv))
    | _, _, some rv, some pv => .fromRP (.finite (pv * rv)) (jsDiv pv rv)
    | _, _, _, _ => .insufficientInputs

/-! ## Battery life (`BatteryLifeCalculator.tsx`) -/

/-- The quantities reported by the battery-life `calculate`. -/
structure BatteryResult where
  hours : ℚ
  days : ℤ
  remHours : ℤ
  minutes : ℤ
  totalHoursDisplay : ℚ
deriving DecidableEq

/-- The battery-life `calculate`: `none` when capacity or current is
unparseable or current is 0 (the silent early return); otherwise
`hours = capacity · efficiency / current`, decomposed with
`Math.floor(hours / 24)`, `Math.floor(hours % 24)`,
`Math.round((hours - Math.floor(hours)) · 60)`, plus `hours.toFixed(1)`. -/
def batteryCalculate (capacity current : Option ℚ) (efficiency : ℚ) :
    Option BatteryResult :=
  match capacity, current with
  | some cap, some curr =>
    if curr = 0 then none
    else
      let hours := cap * efficiency / curr
      some { hours := hours
             days := ⌊hours / 24⌋
             remHours := ⌊jsFmod hours 24⌋
             minutes := jsRound ((hours - (⌊hours⌋ : ℚ)) * 60)
             totalHoursDisplay := round1 hours }
  | _, _ => none

/-! ## Resistor list operations (`App.tsx`) -/

/-- Edits applied by `updateResistor` to a single field of a row. -/
inductive ResistorField where
  | value (q : ℚ)
  | multiplier (q : ℚ)
deriving DecidableEq

/-- The three list operations exposed by the network editor. -/
inductive NetworkOp where
  | add
  | remove (id : ℕ)
  | update (id : ℕ) (f : ResistorField)
deriving DecidableEq

/-- Application of a field edit (`{ ...r, [field]: value }`). -/
def setField (f : ResistorField) (r : Resistor) : Resistor :=
  match f with
  | .value q => { r with value := q }
  | .multiplier q => { r with multiplier := q }

/-- Editor state: the resistor list plus the id supply.  `generateId` is
modelled as a fresh counter (the source draws random uuid-style ids; their
uniqueness is the modelled property). -/
structure EditorState where
  nextId : ℕ
  resistors : List Resistor
deriving DecidableEq

/-- The initial state: two rows `100 Ω` and `200 Ω` with fresh ids. -/
def initialEditorState : EditorState :=
  { nextId := 2, resistors := [⟨0, 100, 1⟩, ⟨1, 200, 1⟩] }

/-- One step of the editor: `addResistor` appends a fresh `{100, ×1}` row,
`removeResistor` filters out the id only when more than one row remains,
`updateResistor` maps the edit over the list. -/
def applyOp (s : EditorState) : NetworkOp → EditorState
  | .add =>
    { nextId := s.nextId + 1
      resistors := s.resistors ++ [⟨s.nextId, 100, 1⟩] }
  | .remove id =>
    if 1 < s.resistors.length then
      { s with resistors := s.resistors.filter fun r => r.id != id }
    else s
  | .update id f =>
    { s with resistors := s.resistors.map fun r =>
        if r.id = id then setField f r else r }

/-- Run a sequence of editor operations from the initial state. -/
def runOps (ops : List NetworkOp) : EditorState :=
  ops.foldl applyOp initialEditorState

/-- C1 (counterexample).  With the single resistor `0 Ω` and a 10 V source the
series solver clamps the total current to 0 (`Rtotal > 0` fails), so every
voltage drop is 0 while the reported total voltage stays 10: the drops do
not sum to the total voltage, far beyond floating-point tolerance. -/
theorem series_drop_sum_fails_at_zero_resistance :
    ((seriesResults [⟨0, 0, 1⟩] 10 .voltage).calculatedResistors.map
        CalculatedResistor.voltageDrop).sum = 0 ∧
    (seriesResults [⟨0, 0, 1⟩] 10 .voltage).totalVoltage = 10 ∧
    ((seriesResults [⟨0, 0, 1⟩] 10 .voltage).calculatedResistors.map
        CalculatedResistor.voltageDrop).sum
      ≠ (seriesResults [⟨0, 0, 1⟩] 10 .voltage).totalVoltage := by
  have hsum : ((seriesResults [⟨0, 0, 1⟩] 10 .voltage).calculatedResistors.map
      CalculatedResistor.voltageDrop).sum = 0 := by
    simp [seriesResults, seriesRow, seriesTotalCurrent, seriesTotalVoltage,
      seriesTotalResistance, actualResistance]
  refine ⟨hsum, rfl, ?_⟩
  rw [hsum,
    show (seriesResults [⟨0, 0, 1⟩] 10 .voltage).totalVoltage = 10 from rfl]
  norm_num

/-- C1 (amended).  In series mode with a voltage source, whenever the total
resistance is positive the per-resistor voltage drops sum exactly to the
reported total voltage, and — unconditionally — every `currentFlow` equals
the single reported total current. -/
theorem series_voltage_source_spec (resistors : List Resistor) (v : ℚ) :
    (0 < (seriesResults resistors v .voltage).totalResistance →
      ((seriesResults resistors v .voltage).calculatedResistors.map
          CalculatedResistor.voltageDrop).sum
        = (seriesResults resistors v .voltage).totalVoltage) ∧
    ∀ c ∈ (seriesResults resistors v .voltage).calculatedResistors,
      c.currentFlow = (seriesResults resistors v .voltage).totalCurrent := by
  have hmap : ∀ tc tv : ℚ,
      (resistors.map (seriesRow tc tv)).map CalculatedResistor.voltageDrop
        = resistors.map fun r => tc * actualResistance r := by
    intro tc tv
    rw [List.map_map]
    rfl
  constructor
  · intro hpos
    have hR : 0 < seriesTotalResistance resistors := hpos
    show ((resistors.map (seriesRow _ _)).map CalculatedResistor.voltageDrop).sum
      = seriesTotalVoltage resistors v .voltage
    rw [hmap]
    show (resistors.map fun r =>
        seriesTotalCurrent resistors v .voltage * actualResistance r).sum = v
    rw [List.sum_map_mul_left]
    rw [show seriesTotalCurrent resistors v .voltage
        = v / seriesTotalResistance resistors from by
      unfold seriesTotalCurrent
      exact if_pos hR]
    exact div_mul_cancel₀ v (ne_of_gt hR)
  · intro c hc
    have hc' : c ∈ resistors.map (seriesRow
        (seriesTotalCurrent resistors v .voltage)
        (seriesTotalVoltage resistors v .voltage)) := hc
    obtain ⟨r, _, rfl⟩ := List.mem_map.1 hc'
    rfl

/-- C1 witness: a concrete positive-resistance network on which the amended
statement is instantiated. -/
theorem series_voltage_source_spec_witness :
    ((seriesResults [⟨0, 100, 1⟩] 10 .voltage).calculatedResistors.map
        CalculatedResistor.voltageDrop).sum
      = (seriesResults [⟨0, 100, 1⟩] 10 .voltage).totalVoltage :=
  (series_voltage_source_spec [⟨0, 100, 1⟩] 10).1 (by
    norm_num [seriesResults, seriesTotalResistance, actualResistance])

/-- C2 (counterexample).  The code has no G branch: at `10^9` it divides by
`10^6` and reports mantissa 1000 with suffix M, while the claimed selection
(largest prefix among n…G with mantissa ≥ 1) would pick G with mantissa 1. -/
theorem formatUnit_no_giga_counterexample :
    formatUnit 1000000000 = (1000, "M") ∧
    specFormatUnit 1000000000 = (1, "G") ∧
    formatUnit 1000000000 ≠ specFormatUnit 1000000000 := by
  refine ⟨?_, ?_, ?_⟩ <;> norm_num [formatUnit, specFormatUnit]

/-- C2 (amended).  For `v ≥ 10^-9` the utility scales by the largest SI
prefix among n, µ, m, none, k, M — with no G step, so the ladder tops out
at M — such that the scaled mantissa is at least 1; `v = 0` is returned
unscaled. -/
theorem formatUnit_amended (num : ℚ) (h : 1 / 1000000000 ≤ num) :
    formatUnit num = specFormatUnitNoG num ∧ 1 ≤ (formatUnit num).1 ∧
    formatUnit 0 = (0, "") := by
  have h0 : 0 < num := lt_of_lt_of_le (by norm_num) h
  have hz : ¬ num = 0 := ne_of_gt h0
  have hzero : formatUnit 0 = (0, "") := by
    unfold formatUnit
    norm_num
  have hmain : formatUnit num = specFormatUnitNoG num ∧
      1 ≤ (formatUnit num).1 := by
    rcases le_or_lt 1000000 num with hM | hM
    · have hF : formatUnit num = (num / 1000000, "M") := by
        unfold formatUnit
        rw [if_pos hM]
      have hS : specFormatUnitNoG num = (num / 1000000, "M") := by
        unfold specFormatUnitNoG
        rw [if_neg hz, if_pos hM]
      refine ⟨hF.trans hS.symm, ?_⟩
      rw [hF]
      show (1:ℚ) ≤ num / 1000000
      rw [le_div_iff₀ (by norm_num : (0:ℚ) < 1000000)]
      linarith
    · rcases le_or_lt 1000 num with hk | hk
      · have hF : formatUnit num = (num / 1000, "k") := by
          unfold formatUnit
          rw [if_neg (not_le.2 hM), if_pos hk]
        have hS : specFormatUnitNoG num = (num / 1000, "k") := by
          unfold specFormatUnitNoG
          rw [if_neg hz, if_neg (not_le.2 hM), if_pos hk]
        refine ⟨hF.trans hS.symm, ?_⟩
        rw [hF]
        show (1:ℚ) ≤ num / 1000
        rw [le_div_iff₀ (by norm_num : (0:ℚ) < 1000)]
        linarith
      · rcases le_or_lt 1 num with h1 | h1
        · have hF : formatUnit num = (num, "") := by
            unfold formatUnit
            rw [if_neg (not_le.2 hM), if_neg (not_le.2 hk),
              if_neg (show ¬ (num < 1 ∧ 0 < num) from fun hc =>
                absurd hc.1 (not_lt.2 h1))]
          have hS : specFormatUnitNoG num = (num, "") := by
            unfold specFormatUnitNoG
            rw [if_neg hz, if_neg (not_le.2 hM), if_neg (not_le.2 hk),
              if_pos h1]
          exact ⟨hF.trans hS.symm, by rw [hF]; exact h1⟩
        · rcases le_or_lt (1 / 1000) num with hm | hm
          · have hF : formatUnit num = (num * 1000, "m") := by
              unfold formatUnit
              rw [if_neg (not_le.2 hM), if_neg (not_le.2 hk),
                if_pos ⟨h1, h0⟩,
                if_neg (show ¬ num < 1 / 1000000 by push_neg; linarith),
                if_neg (not_lt.2 hm)]
            have hS : specFormatUnitNoG num = (num * 1000, "m") := by
              unfold specFormatUnitNoG
              rw [if_neg hz, if_neg (not_le.2 hM), if_neg (not_le.2 hk),
                if_neg (not_le.2 h1), if_pos hm]
            refine ⟨hF.trans hS.symm, ?_⟩
            rw [hF]
            show (1:ℚ) ≤ num * 1000
            linarith
          · rcases le_or_lt (1 / 1000000) num with hu | hu
            · have hF : formatUnit num = (num * 1000000, "µ") := by
                unfold formatUnit
                rw [if_neg (not_le.2 hM), if_neg (not_le.2 hk),
                  if_pos ⟨h1, h0⟩, if_neg (not_lt.2 hu), if_pos hm]
              have hS : specFormatUnitNoG num = (num * 1000000, "µ") := by
                unfold specFormatUnitNoG
                rw [if_neg hz, if_neg (not_le.2 hM), if_neg (not_le.2 hk),
                  if_neg (not_le.2 h1), if_neg (not_le.2 hm), if_pos hu]
              refine ⟨hF.trans hS.symm, ?_⟩
              rw [hF]
              show (1:ℚ) ≤ num * 1000000
              linarith
            · have hF : formatUnit num = (num * 1000000000, "n") := by
                unfold formatUnit
                rw [if_neg (not_le.2 hM), if_neg (not_le.2 hk),
                  if_pos ⟨h1, h0⟩, if_pos hu]
              have hS : specFormatUnitNoG num = (num * 1000000000, "n") := by
                unfold specFormatUnitNoG
                rw [if_neg hz, if_neg (not_le.2 hM), if_neg (not_le.2 hk),
                  if_neg (not_le.2 h1), if_neg (not_le.2 hm),
                  if_neg (not_le.2 hu)]
              refine ⟨hF.trans hS.symm, ?_⟩
              rw [hF]
              show (1:ℚ) ≤ num * 1000000000
              linarith
  exact ⟨hmain.1, hmain.2, hzero⟩

/-- C2 witness: the amended statement at `v = 5`. -/
theorem formatUnit_amended_witness :
    formatUnit 5 = specFormatUnitNoG 5 ∧ 1 ≤ (formatUnit 5).1 ∧
    formatUnit 0 = (0, "") :=
  formatUnit_amended 5 (by norm_num)

/-- The exponential mantissa produced by `toExpDigits f` always has exactly
`f + 1` decimal digits: `10^f ≤ n < 10^(f+1)`. -/
theorem toExpDigits_mantissa_bounds (f : ℕ) (x : ℚ) (hx : x ≠ 0) :
    10 ^ f ≤ (toExpDigits f x).1 ∧ (toExpDigits f x).1 < 10 ^ (f + 1) := by
  have hxpos : (0:ℚ) < |x| := abs_pos.2 hx
  have h1 : ((10:ℕ):ℚ) ^ Int.log 10 |x| ≤ |x| :=
    Int.zpow_log_le_self (by norm_num) hxpos
  have h2 : |x| < ((10:ℕ):ℚ) ^ (Int.log 10 |x| + 1) :=
    Int.lt_zpow_succ_log_self (by norm_num) _
  set e := Int.log 10 |x| with he
  have hpow_pos : (0:ℚ) < (10:ℚ) ^ (e - (f:ℤ)) := zpow_pos (by norm_num) _
  have hten : ((10:ℕ):ℚ) = (10:ℚ) := by norm_num
  rw [hten] at h1 h2
  have hmul : (10:ℚ) ^ (f:ℤ) * (10:ℚ) ^ (e - (f:ℤ)) = (10:ℚ) ^ e := by
    rw [← zpow_add₀ (by norm_num : (10:ℚ) ≠ 0)]
    congr 1
    ring
  have hmul' : (10:ℚ) ^ ((f:ℤ) + 1) * (10:ℚ) ^ (e - (f:ℤ)) = (10:ℚ) ^ (e + 1) := by
    rw [← zpow_add₀ (by norm_num : (10:ℚ) ≠ 0)]
    congr 1
    ring
  have hlow : (10:ℚ) ^ (f:ℤ) ≤ |x| / (10:ℚ) ^ (e - (f:ℤ)) := by
    rw [le_div_iff₀ hpow_pos, hmul]
    exact h1
  have hup : |x| / (10:ℚ) ^ (e - (f:ℤ)) < (10:ℚ) ^ ((f:ℤ) + 1) := by
    rw [div_lt_iff₀ hpow_pos, hmul']
    exact h2
  have hcast : ∀ k : ℕ, (((10:ℤ) ^ k : ℤ) : ℚ) = (10:ℚ) ^ (k:ℤ) := by
    intro k
    push_cast
    rw [zpow_natCast]
  have hnlow : (10:ℤ) ^ f ≤ ⌊|x| / (10:ℚ) ^ (e - (f:ℤ)) + 1/2⌋ := by
    rw [Int.le_floor, hcast f]
    linarith
  have hnup : ⌊|x| / (10:ℚ) ^ (e - (f:ℤ)) + 1/2⌋ ≤ (10:ℤ) ^ (f + 1) := by
    rw [← Int.lt_add_one_iff, Int.floor_lt]
    push_cast
    have hexp : ((f:ℤ) + 1) = ((f + 1 : ℕ) : ℤ) := by push_cast; ring
    rw [hexp, zpow_natCast] at hup
    linarith
  unfold toExpDigits
  rw [← he]
  by_cases hcarry : ⌊|x| / (10:ℚ) ^ (e - (f:ℤ)) + 1/2⌋ = 10 ^ (f + 1)
  · rw [if_pos hcarry]
    constructor
    · exact le_refl _
    · exact pow_lt_pow_right₀ (by norm_num) (Nat.lt_succ_self f)
  · rw [if_neg hcarry]
    exact ⟨hnlow, lt_of_le_of_ne hnup hcarry⟩

/-- C4 (counterexample).  `toExponential(3)` keeps three fractional digits,
i.e. a four-digit significand: at `x = 123456` the code renders
`1.235e+5` — mantissa 1235, which is four significant digits, not
three. -/
theorem formatNumber_three_sig_digits_counterexample :
    formatNumber 123456 = .exponential 1235 5 false ∧
    ¬ hasSigDigits 3 (formatNumber 123456) := by
  have habs : |(123456:ℚ)| = 123456 := by norm_num
  have he : Int.log 10 (123456:ℚ) = 5 := by
    have h5 : ((10:ℕ):ℚ) ^ (5:ℤ) ≤ (123456:ℚ) := by norm_num
    have h6 : (123456:ℚ) < ((10:ℕ):ℚ) ^ (6:ℤ) := by norm_num
    have hlo := (Int.zpow_le_iff_le_log (by norm_num)
      (by norm_num : (0:ℚ) < 123456)).1 h5
    have hhi := (Int.lt_zpow_iff_log_lt (by norm_num)
      (by norm_num : (0:ℚ) < 123456)).1 h6
    omega
  have hdigits : toExpDigits 3 123456 = (1235, 5) := by
    unfold toExpDigits
    rw [habs, he]
    norm_num [Int.floor_eq_iff]
  have hfmt : formatNumber 123456 = .exponential 1235 5 false := by
    unfold formatNumber
    rw [if_neg (by norm_num), if_pos (by right; rw [habs]; norm_num), hdigits]
    norm_num
  exact ⟨hfmt, by rw [hfmt]; simp [hasSigDigits]⟩

/-- C4 (amended).  For nonzero `x` of extreme magnitude
(`|x| < 0.001` or `|x| > 10000`) the scientific-notation formatter renders
`x` in exponential notation with four significant digits
(`toExponential(3)`: three fractional digits). -/
theorem formatNumber_exponential_spec (x : ℚ) (hx : x ≠ 0)
    (hrange : |x| < 1 / 1000 ∨ 10000 < |x|) :
    formatNumber x
      = .exponential (toExpDigits 3 x).1 (toExpDigits 3 x).2 (decide (x < 0)) ∧
    hasSigDigits 4 (formatNumber x) := by
  have hfmt : formatNumber x
      = .exponential (toExpDigits 3 x).1 (toExpDigits 3 x).2 (decide (x < 0)) := by
    unfold formatNumber
    rw [if_neg hx, if_pos hrange]
  refine ⟨hfmt, ?_⟩
  rw [hfmt]
  have hb := toExpDigits_mantissa_bounds 3 x hx
  simpa [hasSigDigits] using hb

/-- C4 witness: the amended statement at `x = 123456`. -/
theorem formatNumber_exponential_spec_witness :
    hasSigDigits 4 (formatNumber 123456) :=
  (formatNumber_exponential_spec 123456 (by norm_num)
    (by right; norm_num)).2

/-- C3 (counterexample).  With all three of R, C, f parseable the filter
solver does not report the insufficient-inputs error: its first branch
fires and computes from R and C, ignoring f. -/
theorem filter_all_three_counterexample :
    filterSuppliedCount (some 1) (some 1) (some 1) = 3 ∧
    calculateFilter (some 1) (some 1) (some 1) = .fromRC 1 1 ∧
    calculateFilter (some 1) (some 1) (some 1) ≠ .insufficientInputs := by
  refine ⟨rfl, rfl, ?_⟩
  simp [calculateFilter]

/-- C3 (amended).  The RC filter solver fails with `InsufficientInputs`
exactly when fewer than two of {R, C, f} are parseable; when R and C are
both supplied — in particular when all three are — it computes from R and
C via its first branch instead of erroring. -/
theorem filter_insufficient_iff (r c f : Option ℚ) :
    (calculateFilter r c f = .insufficientInputs ↔
      filterSuppliedCount r c f ≤ 1) ∧
    ∀ rv cv : ℚ, calculateFilter (some rv) (some cv) f = .fromRC rv cv := by
  constructor
  · rcases r with _ | rv <;> rcases c with _ | cv <;> rcases f with _ | fv <;>
      simp [calculateFilter, filterSuppliedCount] <;>
      split_ifs <;> simp
  · intro rv cv
    rfl

/-- C5 (counterexample).  At V = 1, I = 10⁻⁹ the derived P = V·I = 10⁻⁹
rounds to 0 at four decimal places, so re-running the solver on the
derived pair (R, P) = (10⁹, 0) reproduces V as √(0·10⁹) = 0 — off from
the original V = 1 by far more than the 10⁻⁴ rounding granularity. -/
theorem ohms_roundtrip_counterexample :
    ohmsCalculate (some 1) (some (1 / 1000000000)) none none
      = .fromVI (.finite 1000000000) (.finite (1 / 1000000000)) ∧
    round4 (1 / 1000000000) = 0 ∧
    ohmsCalculate none none (some (round4 1000000000))
        (some (round4 (1 / 1000000000)))
      = .fromRP (.finite 0) (.finite 0) ∧
    Real.sqrt ((0 : ℚ)) = 0 ∧ (1 / 10000 : ℝ) < 1 - Real.sqrt ((0 : ℚ)) := by
  refine ⟨?_, ?_, ?_, ?_, ?_⟩
  · simp [ohmsCalculate, ohmsCount, jsDiv]
  · norm_num [round4, jsToFixed]
  · have h4 : round4 1000000000 = 1000000000 := by
      norm_num [round4, jsToFixed]
    have h0 : round4 (1 / 1000000000) = 0 := by
      norm_num [round4, jsToFixed]
    rw [h4, h0]
    simp [ohmsCalculate, ohmsCount, jsDiv]
  · simp
  · simp
    norm_num

/-- C5 (amended).  For positive V and I whose derived R = V/I and
P = V·I are exactly representable at four decimal places (the rounding is
the identity on them), the round trip is exact: the solver derives
(R, P) = (V/I, V·I), and re-running it on that pair as the known inputs
reproduces V = √(P·R) and I = √(P/R) exactly. -/
theorem ohms_roundtrip_amended (v i : ℚ) (hv : 0 < v) (hi : 0 < i)
    (hr : round4 (v / i) = v / i) (hp : round4 (v * i) = v * i) :
    ohmsCalculate (some v) (some i) none none
      = .fromVI (.finite (v / i)) (.finite (v * i)) ∧
    ohmsCalculate none none (some (round4 (v / i))) (some (round4 (v * i)))
      = .fromRP (.finite (v * i * (v / i))) (.finite (v * i / (v / i))) ∧
    Real.sqrt ((v * i * (v / i) : ℚ)) = v ∧
    Real.sqrt ((v * i / (v / i) : ℚ)) = i := by
  have hine : i ≠ 0 := ne_of_gt hi
  have hvi : v / i ≠ 0 := div_ne_zero (ne_of_gt hv) hine
  refine ⟨?_, ?_, ?_, ?_⟩
  · simp [ohmsCalculate, ohmsCount, jsDiv, hine]
  · rw [hr, hp]
    simp [ohmsCalculate, ohmsCount, jsDiv, hvi]
  · have hcast : ((v * i * (v / i) : ℚ) : ℝ) = (v : ℝ) ^ 2 := by
      push_cast
      field_simp
      ring
    rw [hcast, Real.sqrt_sq (by positivity)]
  · have hcast : ((v * i / (v / i) : ℚ) : ℝ) = (i : ℝ) ^ 2 := by
      have h1 : (v : ℝ) ≠ 0 := Rat.cast_ne_zero.2 (ne_of_gt hv)
      have h2 : (i : ℝ) ≠ 0 := Rat.cast_ne_zero.2 (ne_of_gt hi)
      push_cast
      field_simp
      ring
    rw [hcast, Real.sqrt_sq (by positivity)]

/-- C5 witness: the amended statement at V = 3, I = 2 (derived R = 1.5 and
P = 6 are exact at four decimals). -/
theorem ohms_roundtrip_amended_witness :
    Real.sqrt (((3 : ℚ) * 2 * (3 / 2) : ℚ)) = 3 :=
  (ohms_roundtrip_amended 3 2 (by norm_num) (by norm_num)
    (by norm_num [round4, jsToFixed]) (by norm_num [round4, jsToFixed])).2.2.1

/-- C6.  In delay mode with Vin parseable, R > 0, C > 0, a target threshold
supplied and no elapsed time, the solver reports one of the two
`InvalidConfiguration` errors exactly when `Vtarget ≥ Vin` or
`Vtarget ≤ 0`, and otherwise solves for the time
`t = −R·C·ln(1 − Vtarget/Vin)` (the outcome carries `τ = R·C` and the
voltage fraction; the solved time is `−τ·ln(1 − frac)`). -/
theorem delay_target_spec (vinV vt rv cv : ℚ) (hr : 0 < rv) (hc : 0 < cv) :
    ((calculateDelay (some vinV) (some vt) (some rv) (some cv) none
        = .targetAboveVin ∨
      calculateDelay (some vinV) (some vt) (some rv) (some cv) none
        = .targetNotPositive) ↔ (vinV ≤ vt ∨ vt ≤ 0)) ∧
    (0 < vt → vt < vinV →
      calculateDelay (some vinV) (some vt) (some rv) (some cv) none
        = .timeFromTarget (rv * cv) (vt / vinV) ∧
      -(((rv * cv : ℚ)) : ℝ) * Real.log (1 - ((vt / vinV : ℚ) : ℝ))
        = -((rv : ℝ) * (cv : ℝ)) * Real.log (1 - (vt : ℝ) / (vinV : ℝ))) := by
  have hcd : calculateDelay (some vinV) (some vt) (some rv) (some cv) none
      = if vinV ≤ vt then .targetAboveVin
        else if vt ≤ 0 then .targetNotPositive
        else .timeFromTarget (rv * cv) (vt / vinV) := by
    simp [calculateDelay, optPos, hr, hc]
  constructor
  · rw [hcd]
    by_cases h1 : vinV ≤ vt
    · simp [h1]
    · by_cases h2 : vt ≤ 0 <;> simp [h1, h2]
  · intro hpos hlt
    constructor
    · rw [hcd, if_neg (not_le.2 hlt), if_neg (not_le.2 hpos)]
    · push_cast
      ring

/-- C6 witness: the spec's own charging example Vin = 5 V, R = 10 kΩ,
C = 100 µF, Vtarget = 3.16 V, giving τ = 1 s and fraction 0.632. -/
theorem delay_target_spec_witness :
    calculateDelay (some 5) (some (79 / 25)) (some 10000) (some (1 / 10000))
        none
      = .timeFromTarget (10000 * (1 / 10000)) ((79 / 25) / 5) :=
  ((delay_target_spec 5 (79 / 25) 10000 (1 / 10000)
    (by norm_num) (by norm_num)).2 (by norm_num) (by norm_num)).1

/-- C7.  Atomicity of voltage-divider errors: whenever the solve reports any
error verdict (wrong input count, zero denominator, Vin equal to Vout, or
a negative derived resistance), the four stored field values are returned
exactly as they were before the solve. -/
theorem divider_error_atomic (s : DividerState) (e : DividerError)
    (h : (dividerCalculate s).1 = some e) : (dividerCalculate s).2 = s := by
  revert h
  unfold dividerCalculate
  split_ifs
  · intro _
    rfl
  · split
    all_goals first
      | (intro h; rfl)
      | (split_ifs <;> intro h <;> first | rfl | simp at h)

/-- C7 witness: the empty state errors with `InsufficientInputs` and is
returned unchanged. -/
theorem divider_error_atomic_witness :
    (dividerCalculate ⟨none, none, none, none⟩).2
      = ⟨none, none, none, none⟩ :=
  divider_error_atomic ⟨none, none, none, none⟩ .insufficientInputs rfl

/-- C8.  Battery-life solver: for parseable capacity and current with
current ≠ 0 it reports `hours = capacity·efficiency/current` decomposed as
`⌊hours/24⌋` days, `⌊hours % 24⌋` whole hours and the rounded
fractional-hour minutes plus `toFixed(1)` raw hours; the spec example
capacity 2000, current 100, efficiency 0.85 yields 17 hours 0 minutes
(17.0 hours); a missing value or zero current yields no result. -/
theorem battery_spec :
    (∀ cap curr eff : ℚ, curr ≠ 0 →
      batteryCalculate (some cap) (some curr) eff
        = some { hours := cap * eff / curr
                 days := ⌊cap * eff / curr / 24⌋
                 remHours := ⌊jsFmod (cap * eff / curr) 24⌋
                 minutes := jsRound
                   ((cap * eff / curr - (⌊cap * eff / curr⌋ : ℚ)) * 60)
                 totalHoursDisplay := round1 (cap * eff / curr) }) ∧
    batteryCalculate (some 2000) (some 100) (17 / 20)
      = some { hours := 17, days := 0, remHours := 17, minutes := 0,
               totalHoursDisplay := 17 } ∧
    (∀ x : Option ℚ, ∀ eff : ℚ, batteryCalculate none x eff = none ∧
      batteryCalculate x none eff = none) ∧
    (∀ cap eff : ℚ, batteryCalculate (some cap) (some 0) eff = none) := by
  refine ⟨?_, ?_, ?_, ?_⟩
  · intro cap curr eff hc
    simp [batteryCalculate, hc]
  · norm_num [batteryCalculate, jsFmod, jsTrunc, jsRound, round1, jsToFixed]
  · intro x eff
    exact ⟨rfl, by cases x <;> rfl⟩
  · intro cap eff
    simp [batteryCalculate]

/-- C8 witness: the general clause instantiated on the spec example. -/
theorem battery_spec_witness :
    batteryCalculate (some 2000) (some 100) (17 / 20)
      = some { hours := 2000 * (17 / 20) / 100
               days := ⌊(2000 * (17 / 20) / 100 / 24 : ℚ)⌋
               remHours := ⌊jsFmod (2000 * (17 / 20) / 100) 24⌋
               minutes := jsRound (((2000 * (17 / 20) / 100 : ℚ) -
                 (⌊(2000 * (17 / 20) / 100 : ℚ)⌋ : ℚ)) * 60)
               totalHoursDisplay := round1 (2000 * (17 / 20) / 100) } :=
  battery_spec.1 2000 100 (17 / 20) (by norm_num)

/-- The editor invariant maintained by the resistor-list operations:
a non-empty list, pairwise-distinct ids, and all ids below the id
counter. -/
def EditorInv (s : EditorState) : Prop :=
  s.resistors ≠ [] ∧ (s.resistors.map Resistor.id).Nodup ∧
    ∀ r ∈ s.resistors, r.id < s.nextId

/-- Removing one id from a list of at least two rows with distinct ids
leaves the list non-empty. -/
theorem filter_out_id_ne_nil (l : List Resistor) (t : ℕ)
    (hnd : (l.map Resistor.id).Nodup) (hlen : 1 < l.length) :
    l.filter (fun r => r.id != t) ≠ [] := by
  match l with
  | [] => simp at hlen
  | [a] => simp at hlen
  | a :: b :: rest =>
    by_cases ha : a.id = t
    · have hab : a.id ≠ b.id := by
        simp only [List.map_cons, List.nodup_cons, List.mem_cons,
          List.mem_map] at hnd
        exact fun hEq => hnd.1 (Or.inl hEq)
      have hb : (b.id != t) = true := by
        simp only [bne_iff_ne, ne_eq]
        intro hbt
        exact hab (by rw [ha, hbt])
      have ha' : (a.id != t) = false := by
        simp [ha]
      simp [List.filter_cons, ha', hb]
    · have ha' : (a.id != t) = true := by simp [ha]
      simp [List.filter_cons, ha']

/-- Every editor operation preserves the invariant. -/
theorem editorInv_applyOp (s : EditorState) (op : NetworkOp)
    (h : EditorInv s) : EditorInv (applyOp s op) := by
  obtain ⟨hne, hnd, hlt⟩ := h
  cases op with
  | add =>
    refine ⟨by simp [applyOp], ?_, ?_⟩
    · have hnotin : s.nextId ∉ s.resistors.map Resistor.id := by
        simp only [List.mem_map, not_exists, not_and]
        intro r hr hEq
        exact absurd hEq (Nat.ne_of_lt (hlt r hr))
      simp only [applyOp, List.map_append, List.map_cons, List.map_nil]
      rw [List.nodup_append]
      refine ⟨hnd, List.nodup_singleton _, ?_⟩
      intro x hx
      simp only [List.mem_singleton]
      intro hEq
      exact hnotin (hEq ▸ hx)
    · intro r hr
      simp only [applyOp, List.mem_append, List.mem_singleton] at hr
      rcases hr with hr | rfl
      · exact Nat.lt_succ_of_lt (hlt r hr)
      · exact Nat.lt_succ_self _
  | remove t =>
    by_cases hlen : 1 < s.resistors.length
    · have happ : applyOp s (.remove t)
          = { s with resistors := s.resistors.filter fun r => r.id != t } := by
        simp [applyOp, hlen]
      rw [happ]
      refine ⟨filter_out_id_ne_nil _ _ hnd hlen, ?_, ?_⟩
      · exact List.Nodup.sublist ((List.filter_sublist _).map Resistor.id) hnd
      · intro r hr
        exact hlt r (List.mem_of_mem_filter hr)
    · have happ : applyOp s (.remove t) = s := by
        simp [applyOp, hlen]
      rw [happ]
      exact ⟨hne, hnd, hlt⟩
  | update t f =>
    have hid : ∀ r : Resistor,
        (if r.id = t then setField f r else r).id = r.id := by
      intro r
      split_ifs <;> cases f <;> rfl
    have hmap : (s.resistors.map fun r =>
        if r.id = t then setField f r else r).map Resistor.id
        = s.resistors.map Resistor.id := by
      rw [List.map_map]
      exact List.map_congr_left fun r _ => hid r
    refine ⟨?_, ?_, ?_⟩
    · simp only [applyOp, ne_eq, List.map_eq_nil_iff]
      exact hne
    · show ((s.resistors.map fun r =>
        if r.id = t then setField f r else r).map Resistor.id).Nodup
      rw [hmap]
      exact hnd
    · intro r hr
      simp only [applyOp, List.mem_map] at hr
      obtain ⟨r₀, hr₀, rfl⟩ := hr
      rw [hid r₀]
      exact hlt r₀ hr₀

/-- C9.  Starting from the initial two-resistor list, every sequence of
add/remove/update operations leaves the resistor list non-empty:
`removeResistor` refuses the removal when only one resistor remains. -/
theorem resistor_list_nonempty (ops : List NetworkOp) :
    (runOps ops).resistors ≠ [] := by
  have base : EditorInv initialEditorState := by
    refine ⟨by simp [initialEditorState], by simp [initialEditorState], ?_⟩
    intro r hr
    simp only [initialEditorState, List.mem_cons, List.not_mem_nil,
      or_false] at hr
    rcases hr with rfl | rfl <;> simp [initialEditorState]
  have hfold : ∀ (l : List NetworkOp) (s : EditorState), EditorInv s →
      EditorInv (l.foldl applyOp s) := by
    intro l
    induction l with
    | nil => exact fun s h => h
    | cons op rest ih => exact fun s h => ih _ (editorInv_applyOp s op h)
  exact (hfold ops initialEditorState base).1

/-- C10.  When exactly V and I are supplied with I = 0, the Ohm's-law solver
raises no error: the unguarded division yields a non-finite R
(`Infinity`/`-Infinity` for V ≠ 0 matching V's sign, `NaN` for V = 0)
which survives the 4-decimal writeback unchanged; the solver's only error
verdict, `InsufficientInputs`, occurs exactly when the input count differs
from 2 — no division-by-zero verdict is reachable. -/
theorem ohms_vi_zero_current_no_error (v : ℚ) :
    ohmsCalculate (some v) (some 0) none none
      = .fromVI (jsDiv v 0) (.finite 0) ∧
    (v ≠ 0 → jsDiv v 0 = .posInf ∨ jsDiv v 0 = .negInf) ∧
    (v = 0 → jsDiv v 0 = .nan) ∧
    jsRound4 (jsDiv v 0) = jsDiv v 0 ∧
    ∀ v' i' r' p' : Option ℚ,
      ohmsCalculate v' i' r' p' = .insufficientInputs ↔
        ohmsCount v' i' r' p' ≠ 2 := by
  refine ⟨?_, ?_, ?_, ?_, ?_⟩
  · simp [ohmsCalculate, ohmsCount]
  · intro hv
    unfold jsDiv
    rcases lt_or_gt_of_ne hv with hneg | hpos
    · right
      rw [if_pos rfl, if_neg (not_lt.2 (le_of_lt hneg)), if_pos hneg]
    · left
      rw [if_pos rfl, if_pos hpos]
  · intro hv
    subst hv
    simp [jsDiv]
  · unfold jsDiv
    rw [if_pos rfl]
    split_ifs <;> rfl
  · intro v' i' r' p'
    rcases v' with _ | vv <;> rcases i' with _ | iv <;>
      rcases r' with _ | rv <;> rcases p' with _ | pv <;>
      simp [ohmsCalculate, ohmsCount]

/-- C10 witness: V = 5, I = 0 gives `R = Infinity`. -/
theorem ohms_vi_zero_current_witness :
    jsDiv (5 : ℚ) 0 = .posInf ∨ jsDiv (5 : ℚ) 0 = .negInf :=
  (ohms_vi_zero_current_no_error 5).2.1 (by norm_num)

end Toolkit
